import Mathlib

set_option maxRecDepth 10000

namespace EbookReader

/-!
Shallow embedding of the document core of the ebook-manager repository:
the reader package (DocumentManager and the PDF/EPUB/MOBI document types)
and the zoom/fit view state of the modernui package.  External engines
(the fitz PDF engine, the XML unmarshaller, the HTML entity decoder, file
I/O) are parameters of the embedded functions, mirroring their role as
opaque collaborators of the source.
-/

/-! ### Go standard-library string primitives used by the reader package.
All strings reaching the length-sensitive code paths are ASCII (the MOBI
path replaces every non-ASCII rune by a space first), so Go byte lengths
coincide with the character counts used here. -/

/-- Go unicode.IsSpace, the exact rune set: ASCII whitespace, NEL, NBSP and
the Unicode White_Space code points. -/
def goIsSpace (c : Char) : Bool :=
  let n := c.toNat
  n = 9 || n = 10 || n = 11 || n = 12 || n = 13 || n = 32 ||
  n = 0x85 || n = 0xA0 || n = 0x1680 || (0x2000 ≤ n && n ≤ 0x200A) ||
  n = 0x2028 || n = 0x2029 || n = 0x202F || n = 0x205F || n = 0x3000

/-- Go regexp character class \s (RE2 Perl class): tab, newline, form feed,
carriage return, space. -/
def re2IsSpace (c : Char) : Bool :=
  let n := c.toNat
  n = 9 || n = 10 || n = 12 || n = 13 || n = 32

/-- Go strings.TrimSpace on a rune list: drop unicode.IsSpace runes from both
ends. -/
def trimChars (cs : List Char) : List Char :=
  ((cs.dropWhile goIsSpace).reverse.dropWhile goIsSpace).reverse

/-- Go strings.TrimSpace. -/
def trimSpace (s : String) : String := String.mk (trimChars s.data)

/-- Accumulator pass of Go strings.Fields: split around runs of
unicode.IsSpace runes, keeping only the non-empty words.  The accumulator
holds the current word reversed. -/
def fieldsAux : List Char → List Char → List (List Char)
  | acc, [] => if acc.isEmpty then [] else [acc.reverse]
  | acc, c :: rest =>
    if goIsSpace c then
      if acc.isEmpty then fieldsAux [] rest
      else acc.reverse :: fieldsAux [] rest
    else fieldsAux (c :: acc) rest

/-- Go strings.Fields on a rune list. -/
def fieldsChars (cs : List Char) : List (List Char) := fieldsAux [] cs

/-- Accumulator pass of Go strings.Split(s, sep) for a single newline
separator: the accumulator holds the current piece reversed. -/
def splitOnNLAux : List Char → List Char → List (List Char)
  | acc, [] => [acc.reverse]
  | acc, c :: rest =>
    if c = '\n' then acc.reverse :: splitOnNLAux [] rest
    else splitOnNLAux (c :: acc) rest

/-- Go strings.Split(s, newline) on a rune list. -/
def splitOnNL (cs : List Char) : List (List Char) := splitOnNLAux [] cs

/-- Replacement pass of Go regexp ReplaceAllString with pattern matching one
or more \s runes and replacement a single space: the flag records whether the
previous rune was inside a whitespace run. -/
def collapseWSAux : Bool → List Char → List Char
  | _, [] => []
  | inRun, c :: rest =>
    if re2IsSpace c then
      if inRun then collapseWSAux true rest
      else ' ' :: collapseWSAux true rest
    else c :: collapseWSAux false rest

/-- Go regexp ReplaceAllString replacing every maximal run of \s runes by one
space. -/
def collapseWS (cs : List Char) : List Char := collapseWSAux false cs

/-- Go strings.Join on rune lists. -/
def joinChars (sep : List Char) : List (List Char) → List Char
  | [] => []
  | [w] => w
  | w :: rest => w ++ sep ++ joinChars sep rest

/-- Go strings.ToLower restricted to the ASCII case mapping.  The reader
package only compares the lowered extension against ASCII literals, and on
ASCII input Go's Unicode lowering agrees with this map. -/
def asciiToLower (c : Char) : Char :=
  if 'A' ≤ c && c ≤ 'Z' then Char.ofNat (c.toNat + 32) else c

/-- Go strings.ToLower (ASCII case mapping). -/
def strToLower (s : String) : String := String.mk (s.data.map asciiToLower)

/-- Scan of Go path/filepath.Ext over the reversed rune list: the
accumulator holds the runes already passed, in original order. -/
def extRevAux (acc : List Char) : List Char → String
  | [] => ""
  | c :: rest =>
    if c = '/' then ""
    else if c = '.' then String.mk ('.' :: acc)
    else extRevAux (c :: acc) rest

/-- Go path/filepath.Ext with the Unix separator: the suffix beginning at the
final dot in the final path element, empty when that element has no dot. -/
def Ext (path : String) : String := extRevAux [] path.data.reverse

/-! ### DocumentManager (src/unnamed/part_012).
The Document interface value owned by the manager is a type parameter, and
the three reader constructors the extension switch dispatches to are given
as a record, mirroring interface dispatch.  LoadDocument is instrumented
with the list of documents whose Close method the call invokes, so that
resource release is observable in the embedding; the source LoadDocument
contains no Close call, so that list is empty on every path. -/

structure DocumentManager (Doc : Type) where
  document : Option Doc
  filename : String
  deriving DecidableEq

/-- Constructors the extension switch of LoadDocument dispatches to. -/
structure ReaderCtors (Doc : Type) where
  newPDFDocument : String → Except String Doc
  newEPUBDocument : String → Except String Doc
  newMOBIDocument : String → Except String Doc

/-- Result of a LoadDocument call: the manager state after the call, the
returned error (none on success), and the documents whose Close was invoked
during the call. -/
structure LoadResult (Doc : Type) where
  manager : DocumentManager Doc
  errMsg : Option String
  closed : List Doc

/-- Shared tail of LoadDocument after the extension switch has selected a
constructor: on constructor error return it leaving the state untouched,
otherwise store the new document and filename. -/
def loadWith {Doc : Type} (ctor : String → Except String Doc)
    (dm : DocumentManager Doc) (filename : String) : LoadResult Doc :=
  match ctor filename with
  | Except.error e => { manager := dm, errMsg := some e, closed := [] }
  | Except.ok doc =>
      { manager := { document := some doc, filename := filename },
        errMsg := none, closed := [] }

/-- DocumentManager.LoadDocument: lower-case the extension, dispatch on it,
reject unsupported extensions before any constructor runs. -/
def DocumentManager.LoadDocument {Doc : Type} (c : ReaderCtors Doc)
    (dm : DocumentManager Doc) (filename : String) : LoadResult Doc :=
  let ext := strToLower (Ext filename)
  if ext = ".pdf" then loadWith c.newPDFDocument dm filename
  else if ext = ".epub" then loadWith c.newEPUBDocument dm filename
  else if ext = ".mobi" then loadWith c.newMOBIDocument dm filename
  else { manager := dm, errMsg := some ("unsupported file format: " ++ ext),
         closed := [] }

/-- DocumentManager.Close: close the owned document (closeDoc gives that
document's Close result) and clear the state; a no-op when empty.  Returns
the new state, the returned error and the documents whose Close was
invoked. -/
def DocumentManager.Close {Doc : Type} (closeDoc : Doc → Option String)
    (dm : DocumentManager Doc) : DocumentManager Doc × Option String × List Doc :=
  match dm.document with
  | some doc => ({ document := none, filename := "" }, closeDoc doc, [doc])
  | none => (dm, none, [])

/-- DocumentManager.IsLoaded. -/
def DocumentManager.IsLoaded {Doc : Type} (dm : DocumentManager Doc) : Bool :=
  dm.document.isSome

/-! ### MOBIDocument (src/reader/mobi.go). -/

/-- Character class kept by the MOBI cleanup regexp (printable ASCII plus
newline, carriage return and tab); every other rune is replaced by a
space. -/
def mobiKeepChar (c : Char) : Bool :=
  (0x20 ≤ c.toNat && c.toNat ≤ 0x7E) || c.toNat = 10 || c.toNat = 13 || c.toNat = 9

/-- First step of MOBIDocument.extractReadableText: replace every
non-printable rune by a space. -/
def stripUnprintable (cs : List Char) : List Char :=
  cs.map (fun c => if mobiKeepChar c then c else ' ')

/-- Loop body of MOBIDocument.extractReadableText: trim the line, keep it
when it is longer than 10 bytes and contains a space, collapsing its inner
whitespace.  After the unprintable-rune normalization every rune is ASCII, so
Go's byte length equals the character count used here. -/
def readableStep (acc : List (List Char)) (line : List Char) : List (List Char) :=
  if decide ((trimChars line).length > 10) && (trimChars line).contains ' ' then
    acc ++ [collapseWS (trimChars line)]
  else acc

/-- MOBIDocument.extractReadableText: normalize to printable ASCII, keep the
trimmed lines longer than 10 bytes that contain a space, collapse their inner
whitespace, and join them with blank lines. -/
def extractReadableText (content : String) : String :=
  String.mk (joinChars ('\n' :: '\n' :: [])
    ((splitOnNL (stripUnprintable content.data)).foldl readableStep []))

/-- Placeholder text substituted when no readable line survives (literal from
reader/mobi.go). -/
def mobiPlaceholder : String :=
  "MOBI content extraction not fully implemented.\n\nThis is a placeholder for MOBI file content. A complete MOBI parser would be needed to properly extract and display the book content."

/-- Whitespace-normalized form of the placeholder: the page splitter joins
the placeholder's words with single spaces, so its paragraph break becomes
one space. -/
def mobiPlaceholderPage : String :=
  "MOBI content extraction not fully implemented. This is a placeholder for MOBI file content. A complete MOBI parser would be needed to properly extract and display the book content."

/-- Loop step of MOBIDocument.splitIntoPages: the state is the pages emitted
so far and the current page being accumulated. -/
def splitStep (st : List String × List Char) (word : List Char) :
    List String × List Char :=
  if decide (st.2.length + word.length + 1 > 2000) && !st.2.isEmpty then
    (st.1 ++ [String.mk (trimChars st.2)], word)
  else
    (st.1, (if !st.2.isEmpty then st.2 ++ [' '] else st.2) ++ word)

/-- Final step of MOBIDocument.splitIntoPages: append the trimmed last page
when it still has content. -/
def pagesFlush (st : List String × List Char) : List String :=
  if !(trimChars st.2).isEmpty then st.1 ++ [String.mk (trimChars st.2)] else st.1

/-- MOBIDocument.splitIntoPages: split the text into words and re-chunk them
into pages of at most about 2000 bytes, flushing the trimmed final page when
non-empty. -/
def splitIntoPages (text : String) : List String :=
  pagesFlush ((fieldsChars text.data).foldl splitStep ([], []))

structure MOBIDocument where
  filename : String
  currentPage : Int
  pages : List String
  title : String
  author : String
  deriving DecidableEq

/-- Pure content pipeline of MOBIDocument.extractBasicContent after the file
bytes are read: heuristic extraction, placeholder substitution, page
splitting. -/
def mobiPagesOfContent (content : String) : List String :=
  splitIntoPages (if extractReadableText content = "" then mobiPlaceholder
                  else extractReadableText content)

/-- NewMOBIDocument, with the file read (os.Open + io.ReadAll) given as an
oracle; both the read-failure wrapping and the no-readable-content check
mirror the source. -/
def NewMOBIDocument (readFile : String → Except String String)
    (filename : String) : Except String MOBIDocument :=
  match readFile filename with
  | Except.error e => Except.error ("failed to extract MOBI content: " ++ e)
  | Except.ok content =>
    if (mobiPagesOfContent content).isEmpty then
      Except.error "failed to extract MOBI content: no readable content found in MOBI"
    else
      Except.ok { filename := filename, currentPage := 1,
                  pages := mobiPagesOfContent content,
                  title := "MOBI Document", author := "" }

/-- MOBIDocument.GetTitle. -/
def MOBIDocument.GetTitle (m : MOBIDocument) : String := m.title

/-- MOBIDocument.GetAuthor. -/
def MOBIDocument.GetAuthor (m : MOBIDocument) : String := m.author

/-- MOBIDocument.GetPageCount. -/
def MOBIDocument.GetPageCount (m : MOBIDocument) : Int := m.pages.length

/-- MOBIDocument.GetCurrentPage. -/
def MOBIDocument.GetCurrentPage (m : MOBIDocument) : Int := m.currentPage

/-- MOBIDocument.SetCurrentPage: reject out-of-range pages, otherwise store
the page. -/
def MOBIDocument.SetCurrentPage (m : MOBIDocument) (page : Int) :
    MOBIDocument × Option String :=
  if page < 1 || page > (m.pages.length : Int) then
    (m, some ("page number " ++ toString page ++ " out of range (1-" ++
      toString m.pages.length ++ ")"))
  else ({ m with currentPage := page }, none)

/-- MOBIDocument.GetPageContent: reject out-of-range pages, otherwise return
the stored page text (the index is in bounds by the guard, so the default of
getD is never used). -/
def MOBIDocument.GetPageContent (m : MOBIDocument) (page : Int) :
    Except String String :=
  if page < 1 || page > (m.pages.length : Int) then
    Except.error ("page number " ++ toString page ++ " out of range (1-" ++
      toString m.pages.length ++ ")")
  else Except.ok (m.pages.getD (page - 1).toNat "")

/-! ### EPUBDocument (src/reader/epub.go).
The ZIP archive is modelled as its list of (name, contents) entries; the Go
encoding/xml unmarshaller of the OPF package and the html.UnescapeString
entity decoder are standard-library collaborators given as parameters. -/

structure ManifestItem where
  id : String
  href : String
  mediaType : String
  deriving DecidableEq

structure SpineItem where
  idref : String
  deriving DecidableEq

/-- Parsed OPF package: metadata title and creator lists, manifest and
spine, as the source's xml tags declare them. -/
structure OPF where
  title : List String
  creator : List String
  manifest : List ManifestItem
  spine : List SpineItem
  deriving DecidableEq

structure EPUBDocument where
  zipFile : List (String × String)
  currentPage : Int
  pages : List String
  title : String
  author : String
  deriving DecidableEq

/-- EPUBDocument.readFileFromZip: the first archive entry with the given
name (entry contents stand for what the Go code reads from the entry). -/
def readFileFromZip (zipFile : List (String × String)) (filename : String) :
    Except String String :=
  match zipFile.find? (fun f => f.1 = filename) with
  | some f => Except.ok f.2
  | none => Except.error ("file not found: " ++ filename)

/-- Literal-prefix check used by the regexp scanners: the remainder after
the literal when it leads the input. -/
def stripLit : List Char → List Char → Option (List Char)
  | [], input => some input
  | _ :: _, [] => none
  | l :: ls, r :: rs => if r = l then stripLit ls rs else none

/-- Capture of the regexp full-path="([^"]+)": one or more non-quote runes
up to a closing quote (the accumulator holds them reversed). -/
def captureNonQuote (acc : List Char) : List Char → Option String
  | [] => none
  | c :: rest =>
    if c = '"' then (if acc.isEmpty then none else some (String.mk acc.reverse))
    else captureNonQuote (c :: acc) rest

/-- Match attempt of full-path="([^"]+)" at the current position. -/
def fullPathAt (cs : List Char) : Option String :=
  match stripLit ("full-path=\"".data) cs with
  | some rest => captureNonQuote [] rest
  | none => none

/-- FindStringSubmatch of full-path="([^"]+)": the capture of the leftmost
match. -/
def fullPathScan : List Char → Option String
  | [] => none
  | c :: rest =>
    match fullPathAt (c :: rest) with
    | some s => some s
    | none => fullPathScan rest

/-- EPUBDocument.findOPFPath: read META-INF/container.xml and extract its
full-path attribute. -/
def findOPFPath (zipFile : List (String × String)) : Except String String :=
  match readFileFromZip zipFile "META-INF/container.xml" with
  | Except.error _ => Except.error "container.xml not found"
  | Except.ok containerContent =>
    match fullPathScan containerContent.data with
    | some p => Except.ok p
    | none => Except.error "OPF path not found in container.xml"

/-- EPUBDocument.parseOPF: read the OPF entry and unmarshal it. -/
def parseOPF (xmlUnmarshalOPF : String → Except String OPF)
    (zipFile : List (String × String)) (opfPath : String) : Except String OPF :=
  match readFileFromZip zipFile opfPath with
  | Except.error e => Except.error e
  | Except.ok content =>
    match xmlUnmarshalOPF content with
    | Except.error e => Except.error ("failed to parse OPF: " ++ e)
    | Except.ok opf => Except.ok opf

/-- Splitter of a rune list at a separator rune (Go strings.Split for a
single-rune separator; the accumulator holds the current piece
reversed). -/
def splitOnCharAux (sep : Char) : List Char → List Char → List (List Char)
  | acc, [] => [acc.reverse]
  | acc, c :: rest =>
    if c = sep then acc.reverse :: splitOnCharAux sep [] rest
    else splitOnCharAux sep (c :: acc) rest

/-- Path segments of a slash-separated path. -/
def splitSlash (cs : List Char) : List String :=
  (splitOnCharAux '/' [] cs).map String.mk

/-- Element pass of Go path/filepath.Clean for the Unix separator: empty
and "." segments drop out, ".." pops a previous segment when one is there,
is dropped at the root and kept at the head of a relative path (the
accumulator holds the output segments reversed). -/
def cleanSegsAux (rooted : Bool) : List String → List String → List String
  | outRev, [] => outRev.reverse
  | outRev, seg :: rest =>
    if seg = "" || seg = "." then cleanSegsAux rooted outRev rest
    else if seg = ".." then
      match outRev with
      | s :: outRest =>
        if s = ".." then cleanSegsAux rooted (".." :: s :: outRest) rest
        else cleanSegsAux rooted outRest rest
      | [] =>
        if rooted then cleanSegsAux rooted [] rest
        else cleanSegsAux rooted [".."] rest
    else cleanSegsAux rooted (seg :: outRev) rest

/-- Go path/filepath.Clean for the Unix separator. -/
def cleanPath (p : String) : String :=
  if p = "" then "."
  else if p.data.head? = some '/' then
    match cleanSegsAux true [] (splitSlash p.data) with
    | [] => "/"
    | seg :: segs => "/" ++ String.intercalate "/" (seg :: segs)
  else
    match cleanSegsAux false [] (splitSlash p.data) with
    | [] => "."
    | seg :: segs => String.intercalate "/" (seg :: segs)

/-- Go path/filepath.Dir for the Unix separator: everything up to and
including the final slash, cleaned ("." when there is no slash). -/
def dirPath (path : String) : String :=
  cleanPath (String.mk ((path.data.reverse.dropWhile (fun c => c != '/')).reverse))

/-- Go path/filepath.Join of two elements for the Unix separator. -/
def joinPath (a b : String) : String :=
  if a ≠ "" then cleanPath (a ++ "/" ++ b)
  else if b ≠ "" then cleanPath b
  else ""

/-- Consumption of [^>]* followed by the closing > of a tag: the remainder
after the first > when there is one. -/
def consumeToGt : List Char → Option (List Char)
  | [] => none
  | c :: rest => if c = '>' then some rest else consumeToGt rest

/-- Search for the earliest occurrence of the closing-tag literal; returns
the remainder after it (the lazy .*? of the block regexp). -/
def findClose (closeLit : List Char) : List Char → Option (List Char)
  | [] => none
  | c :: rest =>
    match stripLit closeLit (c :: rest) with
    | some after => some after
    | none => findClose closeLit rest

/-- Match attempt of the script/style block regexp at the current position:
the opening literal (script tried before style, as in the alternation),
then [^>]* and >, then the shortest run ending with the matching closing
tag; returns the remainder after the whole match. -/
def scriptStyleAt (cs : List Char) : Option (List Char) :=
  match stripLit ("<script".data) cs with
  | some rest =>
    (match consumeToGt rest with
     | some rest2 => findClose ("</script>".data) rest2
     | none => none)
  | none =>
    match stripLit ("<style".data) cs with
    | some rest =>
      (match consumeToGt rest with
       | some rest2 => findClose ("</style>".data) rest2
       | none => none)
    | none => none

/-- Fueled replacement loop for the script/style block regexp (replacement
is the empty string): each step consumes at least one rune, so the input
length is always enough fuel. -/
def stripScriptStyleFuel : Nat → List Char → List Char
  | 0, _ => []
  | _ + 1, [] => []
  | fuel + 1, c :: rest =>
    match scriptStyleAt (c :: rest) with
    | some after => stripScriptStyleFuel fuel after
    | none => c :: stripScriptStyleFuel fuel rest

/-- ReplaceAllString of the script/style block regexp with the empty
string. -/
def stripScriptStyle (cs : List Char) : List Char :=
  stripScriptStyleFuel cs.length cs

/-- Fueled replacement loop for the tag regexp <[^>]*> (replacement is one
space): each step consumes at least one rune, so the input length is always
enough fuel. -/
def stripTagsFuel : Nat → List Char → List Char
  | 0, _ => []
  | _ + 1, [] => []
  | fuel + 1, c :: rest =>
    if c = '<' then
      match consumeToGt rest with
      | some after => ' ' :: stripTagsFuel fuel after
      | none => c :: stripTagsFuel fuel rest
    else c :: stripTagsFuel fuel rest

/-- ReplaceAllString of the tag regexp <[^>]*> with one space. -/
def stripTags (cs : List Char) : List Char :=
  stripTagsFuel cs.length cs

/-- EPUBDocument.extractTextFromHTML: remove script and style blocks,
replace the remaining tags by spaces, decode HTML entities (the
standard-library decoder is the unescape parameter), collapse whitespace
runs to single spaces and trim. -/
def extractTextFromHTML (unescape : String → String) (htmlContent : String) :
    String :=
  trimSpace (String.mk (collapseWS
    (unescape (String.mk (stripTags (stripScriptStyle htmlContent.data)))).data))

/-- Metadata extraction of parseEPUB: the first title entry ("" when the
list is empty). -/
def epubTitleOf (opf : OPF) : String :=
  match opf.title with
  | [] => ""
  | t :: _ => t

/-- Metadata extraction of parseEPUB: the creators joined with ", " ("" when
the list is empty). -/
def epubAuthorOf (opf : OPF) : String :=
  if opf.creator.isEmpty then "" else String.intercalate ", " opf.creator

/-- Loop body of parseEPUB over one spine item: resolve the first matching
manifest item, accept only the XHTML and HTML media types, read the entry
resolved against the OPF directory (read failures skip the file), extract
its text and keep it when non-blank. -/
def spineStep (unescape : String → String) (zipFile : List (String × String))
    (opf : OPF) (basePath : String) (acc : List String) (si : SpineItem) :
    List String :=
  match opf.manifest.find? (fun item => item.id = si.idref) with
  | some mi =>
    if mi.mediaType = "application/xhtml+xml" || mi.mediaType = "text/html" then
      match readFileFromZip zipFile (joinPath basePath mi.href) with
      | Except.error _ => acc
      | Except.ok content =>
        if trimSpace (extractTextFromHTML unescape content) ≠ "" then
          acc ++ [extractTextFromHTML unescape content]
        else acc
    else acc
  | none => acc

/-- EPUBDocument.parseEPUB: locate and unmarshal the OPF, take the
metadata, walk the spine collecting chapter texts, and fail when no page
results. -/
def parseEPUB (unescape : String → String)
    (xmlUnmarshalOPF : String → Except String OPF)
    (zipFile : List (String × String)) :
    Except String (String × String × List String) :=
  match findOPFPath zipFile with
  | Except.error e => Except.error e
  | Except.ok opfPath =>
    match parseOPF xmlUnmarshalOPF zipFile opfPath with
    | Except.error e => Except.error e
    | Except.ok opf =>
      if (opf.spine.foldl (spineStep unescape zipFile opf (dirPath opfPath)) []).isEmpty then
        Except.error "no readable content found in EPUB"
      else
        Except.ok (epubTitleOf opf, epubAuthorOf opf,
          opf.spine.foldl (spineStep unescape zipFile opf (dirPath opfPath)) [])

/-- NewEPUBDocument: open the archive (oracle), parse it, and default the
title to "EPUB Document" when empty. -/
def NewEPUBDocument (unescape : String → String)
    (xmlUnmarshalOPF : String → Except String OPF)
    (zipOpen : String → Except String (List (String × String)))
    (filename : String) : Except String EPUBDocument :=
  match zipOpen filename with
  | Except.error e => Except.error ("failed to open EPUB file: " ++ e)
  | Except.ok zipFile =>
    match parseEPUB unescape xmlUnmarshalOPF zipFile with
    | Except.error e => Except.error ("failed to parse EPUB: " ++ e)
    | Except.ok res =>
      Except.ok { zipFile := zipFile, currentPage := 1, pages := res.2.2,
                  title := if res.1 = "" then "EPUB Document" else res.1,
                  author := res.2.1 }

/-- EPUBDocument.GetTitle. -/
def EPUBDocument.GetTitle (e : EPUBDocument) : String := e.title

/-- EPUBDocument.GetAuthor. -/
def EPUBDocument.GetAuthor (e : EPUBDocument) : String := e.author

/-- EPUBDocument.GetPageCount. -/
def EPUBDocument.GetPageCount (e : EPUBDocument) : Int := e.pages.length

/-- EPUBDocument.GetCurrentPage. -/
def EPUBDocument.GetCurrentPage (e : EPUBDocument) : Int := e.currentPage

/-- EPUBDocument.SetCurrentPage: reject out-of-range pages, otherwise store
the page. -/
def EPUBDocument.SetCurrentPage (e : EPUBDocument) (page : Int) :
    EPUBDocument × Option String :=
  if page < 1 || page > (e.pages.length : Int) then
    (e, some ("page number " ++ toString page ++ " out of range (1-" ++
      toString e.pages.length ++ ")"))
  else ({ e with currentPage := page }, none)

/-- EPUBDocument.GetPageContent: reject out-of-range pages, otherwise
return the stored chapter text (the index is in bounds by the guard, so the
default of getD is never used). -/
def EPUBDocument.GetPageContent (e : EPUBDocument) (page : Int) :
    Except String String :=
  if page < 1 || page > (e.pages.length : Int) then
    Except.error ("page number " ++ toString page ++ " out of range (1-" ++
      toString e.pages.length ++ ")")
  else Except.ok (e.pages.getD (page - 1).toNat "")

/-! ### PDFDocument (src/reader/pdf.go).
The fitz engine is an opaque third-party collaborator: the handle returned
by fitz.New carries the page count, the optional metadata map and the
zero-based page renderer. -/

/-- Engine handle returned by fitz.New. -/
structure FitzEngine (Img : Type) where
  numPage : Int
  metadata : Option (List (String × String))
  image : Int → Except String Img

/-- Go map lookup with the zero-value default for missing keys. -/
def mapGet (m : List (String × String)) (k : String) : String :=
  match m.find? (fun e => e.1 = k) with
  | some e => e.2
  | none => ""

structure PDFDocument (Img : Type) where
  engine : FitzEngine Img
  currentPage : Int
  pageCount : Int
  title : String
  author : String

/-- Metadata step of NewPDFDocument: when the engine returns a metadata
map, read title and author from it (missing keys give the empty string). -/
def pdfReadMetadata {Img : Type} (p : PDFDocument Img) : PDFDocument Img :=
  match p.engine.metadata with
  | some m => { p with title := mapGet m "title", author := mapGet m "author" }
  | none => p

/-- Title-defaulting step of NewPDFDocument. -/
def pdfDefaultTitle {Img : Type} (p : PDFDocument Img) : PDFDocument Img :=
  if p.title = "" then { p with title := "PDF Document" } else p

/-- NewPDFDocument: open through the engine (oracle for fitz.New), read the
page count and metadata, and default the title. -/
def NewPDFDocument {Img : Type}
    (fitzNew : String → Except String (FitzEngine Img)) (filename : String) :
    Except String (PDFDocument Img) :=
  match fitzNew filename with
  | Except.error e => Except.error ("failed to open PDF file: " ++ e)
  | Except.ok doc =>
    Except.ok (pdfDefaultTitle (pdfReadMetadata
      { engine := doc, currentPage := 1, pageCount := doc.numPage,
        title := "", author := "" }))

/-- PDFDocument.GetTitle. -/
def PDFDocument.GetTitle {Img : Type} (p : PDFDocument Img) : String := p.title

/-- PDFDocument.GetAuthor. -/
def PDFDocument.GetAuthor {Img : Type} (p : PDFDocument Img) : String := p.author

/-- PDFDocument.GetPageCount. -/
def PDFDocument.GetPageCount {Img : Type} (p : PDFDocument Img) : Int := p.pageCount

/-- PDFDocument.GetCurrentPage. -/
def PDFDocument.GetCurrentPage {Img : Type} (p : PDFDocument Img) : Int := p.currentPage

/-- PDFDocument.SetCurrentPage: reject out-of-range pages, otherwise store
the page. -/
def PDFDocument.SetCurrentPage {Img : Type} (p : PDFDocument Img) (page : Int) :
    PDFDocument Img × Option String :=
  if page < 1 || page > p.pageCount then
    (p, some ("page number " ++ toString page ++ " out of range (1-" ++
      toString p.pageCount ++ ")"))
  else ({ p with currentPage := page }, none)

/-- PDFDocument.GetPageContent: reject out-of-range pages, then ask the
engine to render the zero-based page, wrapping its error. -/
def PDFDocument.GetPageContent {Img : Type} (p : PDFDocument Img) (page : Int) :
    Except String Img :=
  if page < 1 || page > p.pageCount then
    Except.error ("page number " ++ toString page ++ " out of range (1-" ++
      toString p.pageCount ++ ")")
  else
    match p.engine.image (page - 1) with
    | Except.error e =>
      Except.error ("failed to render page " ++ toString page ++ ": " ++ e)
    | Except.ok img => Except.ok img

/-! ### Zoom / fit view state (src/modernui/app.go).
The zoom level is a float64 in Go; the literals 0.1, 1.2 and 5.0 and the
comparisons and arithmetic on them are modelled exactly over the
rationals. -/

/-- View-state fields of ModernApplication involved in zooming. -/
structure ModernApplication where
  zoomLevel : Rat
  fitMode : String
  deriving DecidableEq

/-- Lower clamp of ModernApplication.setZoom. -/
def clampZoomLow (level : Rat) : Rat := if level < 0.1 then 0.1 else level

/-- Upper clamp of ModernApplication.setZoom. -/
def clampZoomHigh (level : Rat) : Rat := if level > 5.0 then 5.0 else level

/-- ModernApplication.setZoom: clamp the level to [0.1, 5.0], store it and
force custom fit mode. -/
def setZoom (ma : ModernApplication) (level : Rat) : ModernApplication :=
  { ma with zoomLevel := clampZoomHigh (clampZoomLow level), fitMode := "custom" }

/-- ModernApplication.zoomIn. -/
def zoomIn (ma : ModernApplication) : ModernApplication :=
  setZoom ma (ma.zoomLevel * 1.2)

/-- ModernApplication.zoomOut. -/
def zoomOut (ma : ModernApplication) : ModernApplication :=
  setZoom ma (ma.zoomLevel / 1.2)

/-- ModernApplication.fitToPage. -/
def fitToPage (ma : ModernApplication) : ModernApplication :=
  { ma with fitMode := "page", zoomLevel := 1.0 }

/-- ModernApplication.fitToWidth. -/
def fitToWidth (ma : ModernApplication) : ModernApplication :=
  { ma with fitMode := "width", zoomLevel := 1.0 }

/-- Decidable equality of Except results, used to evaluate the embedding on
concrete inputs. -/
instance exceptDecEq {ε α : Type} [DecidableEq ε] [DecidableEq α] :
    DecidableEq (Except ε α)
  | Except.ok x, Except.ok y =>
    if h : x = y then isTrue (by rw [h])
    else isFalse (by intro hh; cases hh; exact h rfl)
  | Except.ok _, Except.error _ => isFalse (by intro hh; cases hh)
  | Except.error _, Except.ok _ => isFalse (by intro hh; cases hh)
  | Except.error x, Except.error y =>
    if h : x = y then isTrue (by rw [h])
    else isFalse (by intro hh; cases hh; exact h rfl)

/-! ### Concrete instances used by witnesses and counterexamples. -/

/-- Engine whose single page never renders. -/
def pdfEngineRenderFails : FitzEngine Unit :=
  { numPage := 1, metadata := none, image := fun _ => Except.error "render failed" }

/-- PDF document NewPDFDocument builds on that engine. -/
def pdfDocRenderFails : PDFDocument Unit :=
  { engine := pdfEngineRenderFails, currentPage := 1, pageCount := 1,
    title := "PDF Document", author := "" }

/-- Engine reporting zero pages. -/
def pdfEngineZeroPages : FitzEngine Unit :=
  { numPage := 0, metadata := none, image := fun _ => Except.error "no page" }

/-- PDF document NewPDFDocument builds on the zero-page engine. -/
def pdfDocZeroPages : PDFDocument Unit :=
  { engine := pdfEngineZeroPages, currentPage := 1, pageCount := 0,
    title := "PDF Document", author := "" }

/-- Engine with two pages that always render. -/
def pdfEngineTwoOk : FitzEngine Unit :=
  { numPage := 2, metadata := none, image := fun _ => Except.ok () }

/-- PDF document on the two-page engine. -/
def pdfDocTwoOk : PDFDocument Unit :=
  { engine := pdfEngineTwoOk, currentPage := 1, pageCount := 2,
    title := "PDF Document", author := "" }

/-- EPUB document with one stored chapter, exercising the accessors. -/
def epubDocSample : EPUBDocument :=
  { zipFile := [], currentPage := 1, pages := ["alpha"], title := "T", author := "A" }

/-- Container XML of the minimal EPUB. -/
def epubContainerXml : String :=
  "<?xml version=\"1.0\"?><container><rootfiles><rootfile full-path=\"content.opf\" media-type=\"application/oebps-package+xml\"/></rootfiles></container>"

/-- OPF XML text of the minimal EPUB, as the unmarshal oracle accepts it. -/
def epubOpfXml : String :=
  "<package><metadata><dc:title>Minimal Book</dc:title><dc:creator>Ann Author</dc:creator></metadata><manifest><item id=\"ch1\" href=\"ch1.xhtml\" media-type=\"application/xhtml+xml\"/></manifest><spine><itemref idref=\"ch1\"/></spine></package>"

/-- Parsed OPF record of the minimal EPUB. -/
def epubOpf : OPF :=
  { title := ["Minimal Book"], creator := ["Ann Author"],
    manifest := [{ id := "ch1", href := "ch1.xhtml",
                   mediaType := "application/xhtml+xml" }],
    spine := [{ idref := "ch1" }] }

/-- Unmarshal oracle of the witness: accepts exactly the minimal OPF. -/
def epubXmlOracle (s : String) : Except String OPF :=
  if s = epubOpfXml then Except.ok epubOpf else Except.error "xml syntax error"

/-- Chapter HTML of the minimal EPUB. -/
def epubChapterHtml : String :=
  "<html><body><script>var x = 1</script><p>Hello &amp; welcome</p></body></html>"

/-- Archive entries of the minimal EPUB. -/
def epubZip : List (String × String) :=
  [("META-INF/container.xml", epubContainerXml),
   ("content.opf", epubOpfXml),
   ("ch1.xhtml", epubChapterHtml)]

/-- Fueled scanner replacing every &amp; with & (the input length is always
enough fuel). -/
def unescapeAmpFuel : Nat → List Char → List Char
  | 0, _ => []
  | _ + 1, [] => []
  | fuel + 1, c :: rest =>
    match stripLit ("&amp;".data) (c :: rest) with
    | some after => '&' :: unescapeAmpFuel fuel after
    | none => c :: unescapeAmpFuel fuel rest

/-- Entity decoder instance used by the witnesses: decodes the one entity
the chapter contains. -/
def unescapeAmp (s : String) : String :=
  String.mk (unescapeAmpFuel s.data.length s.data)

/-- EPUB document the minimal EPUB loads to. -/
def epubMinimalDoc : EPUBDocument :=
  { zipFile := epubZip, currentPage := 1, pages := ["Hello & welcome"],
    title := "Minimal Book", author := "Ann Author" }

/-- OPF XML of a minimal EPUB without any metadata. -/
def epubOpfXmlBare : String :=
  "<package><manifest><item id=\"ch1\" href=\"ch1.xhtml\" media-type=\"text/html\"/></manifest><spine><itemref idref=\"ch1\"/></spine></package>"

/-- Parsed OPF record of the metadata-free EPUB. -/
def epubOpfBare : OPF :=
  { title := [], creator := [],
    manifest := [{ id := "ch1", href := "ch1.xhtml", mediaType := "text/html" }],
    spine := [{ idref := "ch1" }] }

/-- Unmarshal oracle accepting exactly the metadata-free OPF. -/
def epubXmlOracleBare (s : String) : Except String OPF :=
  if s = epubOpfXmlBare then Except.ok epubOpfBare else Except.error "xml syntax error"

/-- Archive entries of the metadata-free EPUB. -/
def epubZipBare : List (String × String) :=
  [("META-INF/container.xml", epubContainerXml),
   ("content.opf", epubOpfXmlBare),
   ("ch1.xhtml", epubChapterHtml)]

/-- EPUB document the metadata-free EPUB loads to: placeholder title, empty
author. -/
def epubBareDoc : EPUBDocument :=
  { zipFile := epubZipBare, currentPage := 1, pages := ["Hello & welcome"],
    title := "EPUB Document", author := "" }

/-- Concrete constructors over natural-number documents: the PDF constructor
fails, the other two succeed. -/
def ctorsPDFFails : ReaderCtors Nat :=
  { newPDFDocument := fun _ => Except.error "failed to open PDF file: corrupt",
    newEPUBDocument := fun _ => Except.ok 1,
    newMOBIDocument := fun _ => Except.ok 2 }

/-- Manager state that already owns document 7. -/
def dmOwning7 : DocumentManager Nat := { document := some 7, filename := "old.pdf" }

/-- Concrete constructors over natural-number documents that always
succeed. -/
def ctorsAllOk : ReaderCtors Nat :=
  { newPDFDocument := fun _ => Except.ok 1,
    newEPUBDocument := fun _ => Except.ok 1,
    newMOBIDocument := fun _ => Except.ok 1 }

/-- MOBI document produced for a file with no readable lines. -/
def mobiPlaceholderDoc : MOBIDocument :=
  { filename := "book.mobi", currentPage := 1, pages := [mobiPlaceholderPage],
    title := "MOBI Document", author := "" }

/-! ### Claim C1 -/

/-- Helper: the shared constructor tail reports no Close invocation. -/
theorem loadWith_closed_nil {Doc : Type} (ctor : String → Except String Doc)
    (dm : DocumentManager Doc) (filename : String) :
    (loadWith ctor dm filename).closed = [] := by
  unfold loadWith
  cases ctor filename <;> rfl

/-- Helper: when the shared constructor tail errors, the state is
untouched. -/
theorem loadWith_err_manager {Doc : Type} (ctor : String → Except String Doc)
    (dm : DocumentManager Doc) (filename : String)
    (h : (loadWith ctor dm filename).errMsg.isSome) :
    (loadWith ctor dm filename).manager = dm := by
  unfold loadWith at h ⊢
  cases hc : ctor filename with
  | error e => rfl
  | ok doc => rw [hc] at h; simp at h

/-- Helper: when the shared constructor tail succeeds, the state holds the
new document and filename. -/
theorem loadWith_ok_manager {Doc : Type} (ctor : String → Except String Doc)
    (dm : DocumentManager Doc) (filename : String)
    (h : (loadWith ctor dm filename).errMsg = none) :
    (loadWith ctor dm filename).manager.filename = filename ∧
    ((loadWith ctor dm filename).manager.document).isSome := by
  unfold loadWith at h ⊢
  cases hc : ctor filename with
  | error e => rw [hc] at h; simp at h
  | ok doc => exact ⟨rfl, rfl⟩

/-- C1: failed-load atomicity of DocumentManager.LoadDocument — whenever the
call returns an error (unsupported extension, decided before any constructor
runs, or a failing constructor), the manager's document and filename are
exactly as before the call. -/
theorem loadDocument_failed_load_atomic {Doc : Type} (c : ReaderCtors Doc)
    (dm : DocumentManager Doc) (filename : String)
    (h : (DocumentManager.LoadDocument c dm filename).errMsg.isSome) :
    (DocumentManager.LoadDocument c dm filename).manager = dm := by
  unfold DocumentManager.LoadDocument at h ⊢
  dsimp only at h ⊢
  by_cases h1 : strToLower (Ext filename) = ".pdf"
  · rw [if_pos h1] at h ⊢; exact loadWith_err_manager _ dm filename h
  rw [if_neg h1] at h ⊢
  by_cases h2 : strToLower (Ext filename) = ".epub"
  · rw [if_pos h2] at h ⊢; exact loadWith_err_manager _ dm filename h
  rw [if_neg h2] at h ⊢
  by_cases h3 : strToLower (Ext filename) = ".mobi"
  · rw [if_pos h3] at h ⊢; exact loadWith_err_manager _ dm filename h
  rw [if_neg h3]

/-- Witness for C1: an unsupported extension and a failing PDF reload both
leave the manager owning document 7. -/
theorem loadDocument_failed_load_atomic_witness :
    (DocumentManager.LoadDocument ctorsPDFFails dmOwning7 "book.txt").errMsg.isSome = true ∧
    (DocumentManager.LoadDocument ctorsPDFFails dmOwning7 "book.txt").manager = dmOwning7 ∧
    (DocumentManager.LoadDocument ctorsPDFFails dmOwning7 "next.pdf").errMsg.isSome = true ∧
    (DocumentManager.LoadDocument ctorsPDFFails dmOwning7 "next.pdf").manager = dmOwning7 := by
  refine ⟨by decide, loadDocument_failed_load_atomic ctorsPDFFails dmOwning7 "book.txt" (by decide),
          by decide, loadDocument_failed_load_atomic ctorsPDFFails dmOwning7 "next.pdf" (by decide)⟩

/-! ### Claim C2 -/

/-- C2 counterexample: a manager owning document 7 successfully reloads a new
PDF, yet the Close of document 7 is never invoked during the call — the
source LoadDocument merely overwrites the document field. -/
theorem loadDocument_close_not_invoked_cex :
    (DocumentManager.LoadDocument ctorsAllOk dmOwning7 "new.pdf").errMsg = none ∧
    dmOwning7.document = some 7 ∧
    7 ∉ (DocumentManager.LoadDocument ctorsAllOk dmOwning7 "new.pdf").closed := by
  decide

/-- C2 amended: LoadDocument invokes no Close at all; on success it replaces
the owned document and stored filename with the new ones; the owned
document's Close is invoked only by DocumentManager.Close. -/
theorem loadDocument_replaces_without_close {Doc : Type} (c : ReaderCtors Doc)
    (dm : DocumentManager Doc) (filename : String) :
    (DocumentManager.LoadDocument c dm filename).closed = [] ∧
    ((DocumentManager.LoadDocument c dm filename).errMsg = none →
      (DocumentManager.LoadDocument c dm filename).manager.filename = filename ∧
      ((DocumentManager.LoadDocument c dm filename).manager.document).isSome) ∧
    (∀ (closeDoc : Doc → Option String) (d : Doc), dm.document = some d →
      (DocumentManager.Close closeDoc dm).2.2 = [d]) := by
  refine ⟨?_, ?_, ?_⟩
  · unfold DocumentManager.LoadDocument
    dsimp only
    split
    · exact loadWith_closed_nil _ dm filename
    split
    · exact loadWith_closed_nil _ dm filename
    split
    · exact loadWith_closed_nil _ dm filename
    · rfl
  · intro h
    unfold DocumentManager.LoadDocument at h ⊢
    dsimp only at h ⊢
    by_cases h1 : strToLower (Ext filename) = ".pdf"
    · rw [if_pos h1] at h ⊢; exact loadWith_ok_manager _ dm filename h
    rw [if_neg h1] at h ⊢
    by_cases h2 : strToLower (Ext filename) = ".epub"
    · rw [if_pos h2] at h ⊢; exact loadWith_ok_manager _ dm filename h
    rw [if_neg h2] at h ⊢
    by_cases h3 : strToLower (Ext filename) = ".mobi"
    · rw [if_pos h3] at h ⊢; exact loadWith_ok_manager _ dm filename h
    rw [if_neg h3] at h
    simp at h
  · intro closeDoc d hd
    unfold DocumentManager.Close
    rw [hd]

/-- Witness for C2's amended claim: the concrete successful reload closes
nothing, stores the new filename, and an explicit Close on the prior state
closes exactly document 7. -/
theorem loadDocument_replaces_without_close_witness :
    (DocumentManager.LoadDocument ctorsAllOk dmOwning7 "new.pdf").closed = [] ∧
    (DocumentManager.LoadDocument ctorsAllOk dmOwning7 "new.pdf").manager.filename = "new.pdf" ∧
    (DocumentManager.Close (fun _ => none) dmOwning7).2.2 = [7] := by
  have h := loadDocument_replaces_without_close ctorsAllOk dmOwning7 "new.pdf"
  exact ⟨h.1, (h.2.1 (by decide)).1, h.2.2 (fun _ => none) 7 (by decide)⟩

/-! ### Lemmas about the string primitives -/

/-- Helper: the regexp whitespace class is contained in unicode.IsSpace. -/
theorem re2IsSpace_imp_goIsSpace {c : Char} (h : re2IsSpace c = true) :
    goIsSpace c = true := by
  unfold re2IsSpace at h
  unfold goIsSpace
  simp only [Bool.or_eq_true, decide_eq_true_eq] at h ⊢
  omega

/-- Helper: a rune that is not unicode whitespace is not regexp
whitespace. -/
theorem not_re2IsSpace {c : Char} (h : goIsSpace c = false) :
    re2IsSpace c = false := by
  cases hr : re2IsSpace c
  · rfl
  · rw [re2IsSpace_imp_goIsSpace hr] at h
    exact h

/-- Helper: a non-empty list is not isEmpty. -/
theorem ne_nil_isEmpty_false {α : Type} {l : List α} (h : l ≠ []) :
    l.isEmpty = false := by
  cases l with
  | nil => exact absurd rfl h
  | cons a as => rfl

/-- Helper: an isEmpty = false list is non-empty. -/
theorem isEmpty_false_ne_nil {α : Type} {l : List α} (h : l.isEmpty = false) :
    l ≠ [] := by
  cases l with
  | nil => exact Bool.noConfusion h
  | cons a as => exact List.cons_ne_nil _ _

/-- Helper: a list containing a non-whitespace rune trims to something
non-empty. -/
theorem trimChars_ne_nil_of_mem {cs : List Char} {c : Char}
    (hc : c ∈ cs) (hw : goIsSpace c = false) : trimChars cs ≠ [] := by
  intro h
  unfold trimChars at h
  rw [List.reverse_eq_nil_iff, List.dropWhile_eq_nil_iff] at h
  have hcs := List.takeWhile_append_dropWhile (p := goIsSpace) (l := cs)
  rw [← hcs] at hc
  rcases List.mem_append.mp hc with h1 | h2
  · rw [List.mem_takeWhile_imp h1] at hw
    exact Bool.noConfusion hw
  · have := h c ((List.mem_reverse).mpr h2)
    rw [hw] at this
    exact Bool.noConfusion this

/-- Helper: a non-empty trim result contains a non-whitespace rune. -/
theorem trimChars_exists_nonspace {cs : List Char} (h : trimChars cs ≠ []) :
    ∃ c ∈ trimChars cs, goIsSpace c = false := by
  unfold trimChars at h ⊢
  have hne : (cs.dropWhile goIsSpace).reverse.dropWhile goIsSpace ≠ [] := by
    intro hh
    rw [hh] at h
    exact h rfl
  refine ⟨((cs.dropWhile goIsSpace).reverse.dropWhile goIsSpace).head hne, ?_, ?_⟩
  · exact (List.mem_reverse).mpr (List.head_mem hne)
  · exact List.head_dropWhile_not goIsSpace _ hne

/-- Helper: whitespace collapsing keeps every non-whitespace rune of its
input. -/
theorem mem_collapseWSAux {c : Char} (hw : goIsSpace c = false) :
    ∀ (cs : List Char) (b : Bool), c ∈ cs → c ∈ collapseWSAux b cs := by
  intro cs
  induction cs with
  | nil => intro b h; cases h
  | cons x rest ih =>
    intro b h
    rcases List.mem_cons.mp h with rfl | hmem
    · show c ∈ (if re2IsSpace c = true then
          (if b = true then collapseWSAux true rest
           else ' ' :: collapseWSAux true rest)
        else c :: collapseWSAux false rest)
      rw [not_re2IsSpace hw]
      simp
    · show c ∈ (if re2IsSpace x = true then
          (if b = true then collapseWSAux true rest
           else ' ' :: collapseWSAux true rest)
        else x :: collapseWSAux false rest)
      by_cases hr : re2IsSpace x = true
      · rw [if_pos hr]
        by_cases hb : b = true
        · rw [if_pos hb]; exact ih true hmem
        · rw [if_neg hb]; exact List.mem_cons_of_mem _ (ih true hmem)
      · rw [if_neg hr]
        exact List.mem_cons_of_mem _ (ih false hmem)

/-- Helper: splitting with a non-empty accumulated word yields at least one
field. -/
theorem fieldsAux_ne_nil_of_acc (cs : List Char) :
    ∀ acc : List Char, acc ≠ [] → fieldsAux acc cs ≠ [] := by
  induction cs with
  | nil =>
    intro acc hacc
    simp only [fieldsAux]
    rw [ne_nil_isEmpty_false hacc]
    simp
  | cons x rest ih =>
    intro acc hacc
    simp only [fieldsAux]
    by_cases hsp : goIsSpace x = true
    · rw [if_pos hsp, ne_nil_isEmpty_false hacc]
      simp
    · rw [if_neg hsp]
      exact ih (x :: acc) (List.cons_ne_nil _ _)

/-- Helper: a rune list containing a non-whitespace rune splits into at
least one field. -/
theorem fieldsAux_ne_nil {c : Char} (hw : goIsSpace c = false) :
    ∀ (cs : List Char), c ∈ cs → ∀ acc, fieldsAux acc cs ≠ [] := by
  intro cs
  induction cs with
  | nil => intro h; cases h
  | cons x rest ih =>
    intro h acc
    simp only [fieldsAux]
    by_cases hsp : goIsSpace x = true
    · rcases List.mem_cons.mp h with rfl | hmem
      · rw [hsp] at hw; exact Bool.noConfusion hw
      · rw [if_pos hsp]
        by_cases hacc : acc.isEmpty = true
        · rw [if_pos hacc]
          exact ih hmem []
        · rw [if_neg hacc]
          exact List.cons_ne_nil _ _
    · rw [if_neg hsp]
      exact fieldsAux_ne_nil_of_acc rest (x :: acc) (List.cons_ne_nil _ _)

/-- Helper: every field produced by the splitter is non-empty and free of
whitespace (given the accumulated word is). -/
theorem fieldsAux_mem_good :
    ∀ (cs acc : List Char), (∀ a ∈ acc, goIsSpace a = false) →
      ∀ w ∈ fieldsAux acc cs, w ≠ [] ∧ ∀ ch ∈ w, goIsSpace ch = false := by
  intro cs
  induction cs with
  | nil =>
    intro acc hacc w hw
    simp only [fieldsAux] at hw
    by_cases h : acc.isEmpty = true
    · rw [if_pos h] at hw; cases hw
    · rw [if_neg h] at hw
      rcases List.mem_singleton.mp hw with rfl
      refine ⟨?_, ?_⟩
      · intro hh
        exact isEmpty_false_ne_nil (l := acc) (by revert h; cases acc.isEmpty <;> simp)
          (List.reverse_eq_nil_iff.mp hh)
      · intro ch hch
        exact hacc ch ((List.mem_reverse).mp hch)
  | cons x rest ih =>
    intro acc hacc w hw
    simp only [fieldsAux] at hw
    by_cases hsp : goIsSpace x = true
    · rw [if_pos hsp] at hw
      by_cases h : acc.isEmpty = true
      · rw [if_pos h] at hw
        exact ih [] (by simp) w hw
      · rw [if_neg h] at hw
        rcases List.mem_cons.mp hw with rfl | hmem
        · refine ⟨?_, ?_⟩
          · intro hh
            exact isEmpty_false_ne_nil (l := acc) (by revert h; cases acc.isEmpty <;> simp)
              (List.reverse_eq_nil_iff.mp hh)
          · intro ch hch
            exact hacc ch ((List.mem_reverse).mp hch)
        · exact ih [] (by simp) w hmem
    · rw [if_neg hsp] at hw
      refine ih (x :: acc) ?_ w hw
      intro a ha
      rcases List.mem_cons.mp ha with rfl | ha'
      · revert hsp; cases goIsSpace a <;> simp
      · exact hacc a ha'

/-- Helper: one splitIntoPages step starting from any state leaves either an
emitted page or a current page that trims to something non-empty, provided
the word is non-empty and whitespace-free. -/
theorem splitStep_good (st : List String × List Char) {w : List Char}
    (hne : w ≠ []) (hgood : ∀ c ∈ w, goIsSpace c = false) :
    (splitStep st w).1 ≠ [] ∨ trimChars (splitStep st w).2 ≠ [] := by
  obtain ⟨c, hc, hcw⟩ : ∃ c ∈ w, goIsSpace c = false := by
    cases w with
    | nil => exact absurd rfl hne
    | cons a as => exact ⟨a, List.mem_cons_self _ _, hgood a (List.mem_cons_self _ _)⟩
  unfold splitStep
  split
  · left
    intro h
    have := (List.append_eq_nil.mp h).2
    exact List.cons_ne_nil _ _ this
  · right
    exact trimChars_ne_nil_of_mem (List.mem_append_right _ hc) hcw

/-- Helper: folding the page splitter over a non-empty list of good words
preserves the non-emptiness invariant. -/
theorem foldl_splitStep_ne :
    ∀ (words : List (List Char)),
      (∀ w ∈ words, w ≠ [] ∧ ∀ c ∈ w, goIsSpace c = false) → words ≠ [] →
      ∀ st, (words.foldl splitStep st).1 ≠ [] ∨
        trimChars (words.foldl splitStep st).2 ≠ [] := by
  intro words
  induction words with
  | nil => intro _ hne; exact absurd rfl hne
  | cons w ws ih =>
    intro hgood _ st
    rw [List.foldl_cons]
    cases ws with
    | nil =>
      rw [List.foldl_nil]
      obtain ⟨h1, h2⟩ := hgood w (List.mem_cons_self _ _)
      exact splitStep_good st h1 h2
    | cons w2 ws2 =>
      exact ih (fun x hx => hgood x (List.mem_cons_of_mem _ hx))
        (List.cons_ne_nil _ _) _

/-- Helper: the final flush emits a non-empty page list whenever the
invariant holds. -/
theorem pagesFlush_ne_nil (st : List String × List Char)
    (h : st.1 ≠ [] ∨ trimChars st.2 ≠ []) : pagesFlush st ≠ [] := by
  unfold pagesFlush
  rcases h with h1 | h2
  · split
    · intro hh
      have := (List.append_eq_nil.mp hh).2
      exact List.cons_ne_nil _ _ this
    · exact h1
  · rw [if_pos (by rw [ne_nil_isEmpty_false h2]; rfl)]
    intro hh
    have := (List.append_eq_nil.mp hh).2
    exact List.cons_ne_nil _ _ this

/-- Helper: splitIntoPages of a text with a non-empty whitespace-free word
list never returns zero pages. -/
theorem splitIntoPages_ne_nil {text : String}
    (hf : fieldsChars text.data ≠ []) : splitIntoPages text ≠ [] := by
  unfold splitIntoPages
  refine pagesFlush_ne_nil _ ?_
  refine foldl_splitStep_ne (fieldsChars text.data) ?_ hf ([], [])
  intro w hw
  exact fieldsAux_mem_good text.data [] (by simp) w hw

/-- Helper: every line the readable-line loop keeps contains a
non-whitespace rune. -/
theorem readable_mem_good :
    ∀ (lines : List (List Char)) (acc : List (List Char)),
      (∀ w ∈ acc, ∃ c ∈ w, goIsSpace c = false) →
      ∀ w ∈ lines.foldl readableStep acc, ∃ c ∈ w, goIsSpace c = false := by
  intro lines
  induction lines with
  | nil => intro acc hacc w hw; exact hacc w hw
  | cons l ls ih =>
    intro acc hacc w hw
    rw [List.foldl_cons] at hw
    refine ih _ ?_ w hw
    intro x hx
    unfold readableStep at hx
    split at hx
    · rcases List.mem_append.mp hx with hx1 | hx2
      · exact hacc x hx1
      · rcases List.mem_singleton.mp hx2 with rfl
        rename_i hcond
        have hlen : (trimChars l).length > 10 :=
          of_decide_eq_true ((Bool.and_eq_true _ _).mp hcond).1
        have hne : trimChars l ≠ [] := by
          intro hh
          rw [hh] at hlen
          simp at hlen
        obtain ⟨c, hc, hcw⟩ := trimChars_exists_nonspace hne
        exact ⟨c, mem_collapseWSAux hcw _ false hc, hcw⟩
    · exact hacc x hx

/-- Helper: a rune of the first joined piece is a rune of the join. -/
theorem joinChars_mem_head {sep w : List Char} {ws : List (List Char)}
    {c : Char} (hc : c ∈ w) : c ∈ joinChars sep (w :: ws) := by
  cases ws with
  | nil => exact hc
  | cons w2 ws2 =>
    show c ∈ w ++ sep ++ joinChars sep (w2 :: ws2)
    exact List.mem_append_left _ (List.mem_append_left _ hc)

/-- Helper: a non-empty extractReadableText result contains a
non-whitespace rune. -/
theorem extractReadableText_good {content : String}
    (h : extractReadableText content ≠ "") :
    ∃ c ∈ (extractReadableText content).data, goIsSpace c = false := by
  unfold extractReadableText at h ⊢
  have hne : (splitOnNL (stripUnprintable content.data)).foldl readableStep [] ≠ [] := by
    intro hh
    apply h
    rw [hh]
    rfl
  obtain ⟨w, ws, hrl⟩ := List.exists_cons_of_ne_nil hne
  obtain ⟨c, hc, hcw⟩ :=
    readable_mem_good (splitOnNL (stripUnprintable content.data)) [] (by simp) w
      (by rw [hrl]; exact List.mem_cons_self _ _)
  rw [hrl]
  exact ⟨c, joinChars_mem_head hc, hcw⟩

/-! ### Claim C5 -/

/-- Helper: the page splitter turns the placeholder into exactly one page,
its whitespace-normalized form. -/
theorem splitIntoPages_placeholder :
    splitIntoPages mobiPlaceholder = [mobiPlaceholderPage] := by decide

/-- C5 counterexample: for an empty source file the heuristic extracts
nothing, a MOBI document is produced, and its single page is the
whitespace-normalized placeholder — not the placeholder string of the
source, whose paragraph break the page splitter collapses to one space. -/
theorem mobi_placeholder_page_cex :
    NewMOBIDocument (fun _ => Except.ok "") "book.mobi" =
      Except.ok mobiPlaceholderDoc ∧
    mobiPlaceholderDoc.GetPageContent 1 = Except.ok mobiPlaceholderPage ∧
    mobiPlaceholderPage ≠ mobiPlaceholder := by
  refine ⟨rfl, rfl, by decide⟩

/-- C5 amended: for every readable file from which the readable-line
heuristic extracts nothing, NewMOBIDocument succeeds, GetPageCount returns
1, and GetPageContent 1 returns the fixed whitespace-normalized placeholder
text (the placeholder with its words rejoined by single spaces), not an
error. -/
theorem mobi_degrade_to_placeholder (readFile : String → Except String String)
    (filename content : String)
    (hread : readFile filename = Except.ok content)
    (hempty : extractReadableText content = "") :
    ∃ doc : MOBIDocument,
      NewMOBIDocument readFile filename = Except.ok doc ∧
      doc.GetPageCount = 1 ∧
      doc.GetPageContent 1 = Except.ok mobiPlaceholderPage := by
  have hpages : mobiPagesOfContent content = [mobiPlaceholderPage] := by
    show splitIntoPages (if extractReadableText content = "" then mobiPlaceholder
      else extractReadableText content) = _
    rw [hempty, if_pos rfl]
    exact splitIntoPages_placeholder
  refine ⟨{ filename := filename, currentPage := 1, pages := [mobiPlaceholderPage],
            title := "MOBI Document", author := "" }, ?_, rfl, rfl⟩
  unfold NewMOBIDocument
  rw [hread]
  dsimp only
  rw [hpages]
  rfl

/-- Witness for C5's amended claim: a two-byte binary file yields the single
normalized-placeholder page. -/
theorem mobi_degrade_to_placeholder_witness :
    ∃ doc : MOBIDocument,
      NewMOBIDocument (fun _ => Except.ok "\x01\x02") "any.mobi" = Except.ok doc ∧
      doc.GetPageCount = 1 ∧
      doc.GetPageContent 1 = Except.ok mobiPlaceholderPage :=
  mobi_degrade_to_placeholder (fun _ => Except.ok "\x01\x02") "any.mobi"
    "\x01\x02" rfl (by decide)

/-! ### Claim C10 -/

/-- C10: MOBI construction fails only on I/O — for every file content the
page pipeline yields at least one page (the placeholder substitutes for an
empty extraction and any non-empty extraction splits into at least one
page), so whenever the file is read successfully NewMOBIDocument succeeds
and the no-readable-content error branch is unreachable. -/
theorem mobi_construction_total (content : String)
    (readFile : String → Except String String) (filename : String)
    (hread : readFile filename = Except.ok content) :
    mobiPagesOfContent content ≠ [] ∧
    ∃ doc : MOBIDocument, NewMOBIDocument readFile filename = Except.ok doc := by
  have hmain : mobiPagesOfContent content ≠ [] := by
    unfold mobiPagesOfContent
    by_cases he : extractReadableText content = ""
    · rw [he, if_pos rfl, splitIntoPages_placeholder]
      exact List.cons_ne_nil _ _
    · rw [if_neg he]
      obtain ⟨c, hc, hcw⟩ := extractReadableText_good he
      exact splitIntoPages_ne_nil (fieldsAux_ne_nil hcw _ hc [])
  refine ⟨hmain, ⟨{ filename := filename, currentPage := 1,
                    pages := mobiPagesOfContent content,
                    title := "MOBI Document", author := "" }, ?_⟩⟩
  unfold NewMOBIDocument
  rw [hread]
  dsimp only
  rw [ne_nil_isEmpty_false hmain]
  rfl

/-- Witness for C10: an all-binary one-byte file loads successfully. -/
theorem mobi_construction_total_witness :
    mobiPagesOfContent "\x00" ≠ [] ∧
    ∃ doc : MOBIDocument,
      NewMOBIDocument (fun _ => Except.ok "\x00") "b.mobi" = Except.ok doc :=
  mobi_construction_total "\x00" (fun _ => Except.ok "\x00") "b.mobi" rfl

/-! ### Claim C3 -/

/-- C3 counterexample: a successfully loaded PDF whose engine cannot
rasterize its single page — page 1 is in range, GetPageCount is 1, yet
GetPageContent 1 returns a render error, against the claim that every
in-range request succeeds. -/
theorem getPageContent_in_range_fails_cex :
    NewPDFDocument (fun _ => Except.ok pdfEngineRenderFails) "a.pdf" =
      Except.ok pdfDocRenderFails ∧
    pdfDocRenderFails.GetPageCount = 1 ∧
    pdfDocRenderFails.GetPageContent 1 =
      Except.error "failed to render page 1: render failed" :=
  ⟨rfl, rfl, rfl⟩

/-- C3 amended: GetPageContent fails with the out-of-range error exactly
outside [1, pageCount] for all three formats; inside the range EPUB and
MOBI always return the stored page text, while PDF returns the engine's
rendering when it succeeds and a render error when the engine fails. -/
theorem getPageContent_range {Img : Type} :
    (∀ (e : EPUBDocument) (n : Int),
      ((n < 1 ∨ n > e.GetPageCount) → ∃ msg, e.GetPageContent n = Except.error msg) ∧
      (1 ≤ n → n ≤ e.GetPageCount → ∃ s, e.GetPageContent n = Except.ok s)) ∧
    (∀ (m : MOBIDocument) (n : Int),
      ((n < 1 ∨ n > m.GetPageCount) → ∃ msg, m.GetPageContent n = Except.error msg) ∧
      (1 ≤ n → n ≤ m.GetPageCount → ∃ s, m.GetPageContent n = Except.ok s)) ∧
    (∀ (p : PDFDocument Img) (n : Int),
      ((n < 1 ∨ n > p.GetPageCount) → ∃ msg, p.GetPageContent n = Except.error msg) ∧
      (1 ≤ n → n ≤ p.GetPageCount →
        (∀ img, p.engine.image (n - 1) = Except.ok img →
          p.GetPageContent n = Except.ok img) ∧
        (∀ err, p.engine.image (n - 1) = Except.error err →
          ∃ msg, p.GetPageContent n = Except.error msg))) := by
  refine ⟨?_, ?_, ?_⟩
  · intro e n
    unfold EPUBDocument.GetPageCount EPUBDocument.GetPageContent
    constructor
    · intro h
      rw [if_pos (by simp only [Bool.or_eq_true, decide_eq_true_eq]; omega)]
      exact ⟨_, rfl⟩
    · intro h1 h2
      rw [if_neg (by simp only [Bool.or_eq_true, decide_eq_true_eq]; omega)]
      exact ⟨_, rfl⟩
  · intro m n
    unfold MOBIDocument.GetPageCount MOBIDocument.GetPageContent
    constructor
    · intro h
      rw [if_pos (by simp only [Bool.or_eq_true, decide_eq_true_eq]; omega)]
      exact ⟨_, rfl⟩
    · intro h1 h2
      rw [if_neg (by simp only [Bool.or_eq_true, decide_eq_true_eq]; omega)]
      exact ⟨_, rfl⟩
  · intro p n
    unfold PDFDocument.GetPageCount PDFDocument.GetPageContent
    constructor
    · intro h
      rw [if_pos (by simp only [Bool.or_eq_true, decide_eq_true_eq]; omega)]
      exact ⟨_, rfl⟩
    · intro h1 h2
      rw [if_neg (by simp only [Bool.or_eq_true, decide_eq_true_eq]; omega)]
      constructor
      · intro img himg
        rw [himg]
      · intro err herr
        rw [herr]
        exact ⟨_, rfl⟩

/-- Witness for C3's amended claim: in-range and out-of-range requests on
concrete documents of the three formats, with both engine outcomes for
PDF. -/
theorem getPageContent_range_witness :
    (∃ s, epubDocSample.GetPageContent 1 = Except.ok s) ∧
    (∃ msg, epubDocSample.GetPageContent 2 = Except.error msg) ∧
    (∃ s, mobiPlaceholderDoc.GetPageContent 1 = Except.ok s) ∧
    (∃ msg, mobiPlaceholderDoc.GetPageContent 0 = Except.error msg) ∧
    pdfDocTwoOk.GetPageContent 1 = Except.ok () ∧
    (∃ msg, pdfDocRenderFails.GetPageContent 1 = Except.error msg) := by
  have h := @getPageContent_range Unit
  exact ⟨(h.1 epubDocSample 1).2 (by decide) (by decide),
         (h.1 epubDocSample 2).1 (by decide),
         (h.2.1 mobiPlaceholderDoc 1).2 (by decide) (by decide),
         (h.2.1 mobiPlaceholderDoc 0).1 (by decide),
         ((h.2.2 pdfDocTwoOk 1).2 (by decide) (by decide)).1 () rfl,
         ((h.2.2 pdfDocRenderFails 1).2 (by decide) (by decide)).2 "render failed" rfl⟩

/-! ### Claim C4 -/

/-- Helper: a successful parseEPUB returns a non-empty page list. -/
theorem parseEPUB_ok_pages {unescape : String → String}
    {xml : String → Except String OPF} {zipFile : List (String × String)}
    {res : String × String × List String}
    (h : parseEPUB unescape xml zipFile = Except.ok res) : res.2.2 ≠ [] := by
  unfold parseEPUB at h
  cases hfind : findOPFPath zipFile with
  | error e => rw [hfind] at h; cases h
  | ok opfPath =>
    rw [hfind] at h
    dsimp only at h
    cases hopf : parseOPF xml zipFile opfPath with
    | error e => rw [hopf] at h; cases h
    | ok opf =>
      rw [hopf] at h
      dsimp only at h
      split at h
      · cases h
      · rename_i hcond
        cases h
        intro hnil
        exact hcond (by rw [show (opf.spine.foldl (spineStep unescape zipFile opf (dirPath opfPath)) []) = [] from hnil]; rfl)

/-- Helper: the metadata and title-defaulting steps of NewPDFDocument do not
touch the engine and page fields. -/
theorem pdfSteps_preserve {Img : Type} (p : PDFDocument Img) :
    (pdfDefaultTitle (pdfReadMetadata p)).pageCount = p.pageCount ∧
    (pdfDefaultTitle (pdfReadMetadata p)).currentPage = p.currentPage ∧
    (pdfDefaultTitle (pdfReadMetadata p)).engine = p.engine := by
  unfold pdfReadMetadata pdfDefaultTitle
  cases p.engine.metadata <;> dsimp only <;> split <;> exact ⟨rfl, rfl, rfl⟩

/-- Helper: inversion of a successful NewMOBIDocument. -/
theorem newMOBI_ok {readFile : String → Except String String} {fn : String}
    {doc : MOBIDocument} (h : NewMOBIDocument readFile fn = Except.ok doc) :
    doc.pages ≠ [] ∧ doc.currentPage = 1 ∧ doc.title = "MOBI Document" ∧
    doc.author = "" := by
  unfold NewMOBIDocument at h
  cases hr : readFile fn with
  | error e => rw [hr] at h; cases h
  | ok content =>
    rw [hr] at h
    dsimp only at h
    split at h
    · cases h
    · rename_i hcond
      cases h
      exact ⟨isEmpty_false_ne_nil (by revert hcond; cases (mobiPagesOfContent content).isEmpty <;> simp),
             rfl, rfl, rfl⟩

/-- Helper: inversion of a successful NewEPUBDocument. -/
theorem newEPUB_ok {unescape : String → String} {xml : String → Except String OPF}
    {zipOpen : String → Except String (List (String × String))} {fn : String}
    {doc : EPUBDocument}
    (h : NewEPUBDocument unescape xml zipOpen fn = Except.ok doc) :
    doc.pages ≠ [] ∧ doc.currentPage = 1 := by
  unfold NewEPUBDocument at h
  cases hz : zipOpen fn with
  | error e => rw [hz] at h; cases h
  | ok zf =>
    rw [hz] at h
    dsimp only at h
    cases hp : parseEPUB unescape xml zf with
    | error e => rw [hp] at h; cases h
    | ok res =>
      rw [hp] at h
      cases h
      exact ⟨parseEPUB_ok_pages hp, rfl⟩

/-- C4 counterexample: the code accepts an engine-reported page count of
zero — the load succeeds, GetPageCount is 0, so GetPageCount ≥ 1 fails and
the initial current page 1 already violates currentPage ≤ pageCount. -/
theorem pdf_zero_page_count_cex :
    NewPDFDocument (fun _ => Except.ok pdfEngineZeroPages) "empty.pdf" =
      Except.ok pdfDocZeroPages ∧
    pdfDocZeroPages.GetPageCount = 0 ∧
    ¬(1 ≤ pdfDocZeroPages.GetPageCount) ∧
    pdfDocZeroPages.GetCurrentPage = 1 ∧
    ¬(pdfDocZeroPages.GetCurrentPage ≤ pdfDocZeroPages.GetPageCount) :=
  ⟨rfl, rfl, by decide, rfl, by decide⟩

/-- C4 amended: EPUB and MOBI loads guarantee GetPageCount ≥ 1 and start at
page 1; a PDF load stores the engine-reported count unvalidated (it can be
0, violating the invariant) and starts at page 1; SetCurrentPage of every
format rejects pages outside [1, pageCount] leaving the document unchanged,
stores in-range pages leaving the page list untouched, and so preserves the
invariant 1 ≤ currentPage ≤ pageCount whenever it already holds. -/
theorem page_index_invariant {Img : Type} :
    (∀ (unescape : String → String) (xml : String → Except String OPF)
       (zipOpen : String → Except String (List (String × String)))
       (fn : String) (doc : EPUBDocument),
       NewEPUBDocument unescape xml zipOpen fn = Except.ok doc →
       1 ≤ doc.GetPageCount ∧ doc.GetCurrentPage = 1) ∧
    (∀ (readFile : String → Except String String) (fn : String)
       (doc : MOBIDocument),
       NewMOBIDocument readFile fn = Except.ok doc →
       1 ≤ doc.GetPageCount ∧ doc.GetCurrentPage = 1) ∧
    (∀ (fitzNew : String → Except String (FitzEngine Img)) (fn : String)
       (eng : FitzEngine Img) (doc : PDFDocument Img),
       fitzNew fn = Except.ok eng →
       NewPDFDocument fitzNew fn = Except.ok doc →
       doc.GetPageCount = eng.numPage ∧ doc.GetCurrentPage = 1) ∧
    (∀ (e : EPUBDocument) (p : Int),
      ((p < 1 ∨ p > e.GetPageCount) →
        (e.SetCurrentPage p).1 = e ∧ ((e.SetCurrentPage p).2).isSome) ∧
      (1 ≤ p → p ≤ e.GetPageCount →
        (e.SetCurrentPage p).1.currentPage = p ∧
        (e.SetCurrentPage p).1.pages = e.pages ∧ (e.SetCurrentPage p).2 = none) ∧
      (1 ≤ e.GetCurrentPage → e.GetCurrentPage ≤ e.GetPageCount →
        1 ≤ (e.SetCurrentPage p).1.currentPage ∧
        (e.SetCurrentPage p).1.currentPage ≤ e.GetPageCount)) ∧
    (∀ (m : MOBIDocument) (p : Int),
      ((p < 1 ∨ p > m.GetPageCount) →
        (m.SetCurrentPage p).1 = m ∧ ((m.SetCurrentPage p).2).isSome) ∧
      (1 ≤ p → p ≤ m.GetPageCount →
        (m.SetCurrentPage p).1.currentPage = p ∧
        (m.SetCurrentPage p).1.pages = m.pages ∧ (m.SetCurrentPage p).2 = none) ∧
      (1 ≤ m.GetCurrentPage → m.GetCurrentPage ≤ m.GetPageCount →
        1 ≤ (m.SetCurrentPage p).1.currentPage ∧
        (m.SetCurrentPage p).1.currentPage ≤ m.GetPageCount)) ∧
    (∀ (pd : PDFDocument Img) (p : Int),
      ((p < 1 ∨ p > pd.GetPageCount) →
        (pd.SetCurrentPage p).1 = pd ∧ ((pd.SetCurrentPage p).2).isSome) ∧
      (1 ≤ p → p ≤ pd.GetPageCount →
        (pd.SetCurrentPage p).1.currentPage = p ∧
        (pd.SetCurrentPage p).1.pageCount = pd.pageCount ∧
        (pd.SetCurrentPage p).2 = none) ∧
      (1 ≤ pd.GetCurrentPage → pd.GetCurrentPage ≤ pd.GetPageCount →
        1 ≤ (pd.SetCurrentPage p).1.currentPage ∧
        (pd.SetCurrentPage p).1.currentPage ≤ pd.GetPageCount)) := by
  refine ⟨?_, ?_, ?_, ?_, ?_, ?_⟩
  · intro unescape xml zipOpen fn doc h
    obtain ⟨hne, hcur⟩ := newEPUB_ok h
    unfold EPUBDocument.GetPageCount EPUBDocument.GetCurrentPage
    have := List.length_pos.mpr hne
    exact ⟨by omega, hcur⟩
  · intro readFile fn doc h
    obtain ⟨hne, hcur, _, _⟩ := newMOBI_ok h
    unfold MOBIDocument.GetPageCount MOBIDocument.GetCurrentPage
    have := List.length_pos.mpr hne
    exact ⟨by omega, hcur⟩
  · intro fitzNew fn eng doc hf hn
    unfold NewPDFDocument at hn
    rw [hf] at hn
    cases hn
    have h := @pdfSteps_preserve Img
      { engine := eng, currentPage := 1, pageCount := eng.numPage,
        title := "", author := "" }
    exact ⟨h.1, h.2.1⟩
  · intro e p
    unfold EPUBDocument.SetCurrentPage EPUBDocument.GetPageCount
      EPUBDocument.GetCurrentPage
    refine ⟨?_, ?_, ?_⟩
    · intro h
      rw [if_pos (by simp only [Bool.or_eq_true, decide_eq_true_eq]; omega)]
      exact ⟨rfl, rfl⟩
    · intro h1 h2
      rw [if_neg (by simp only [Bool.or_eq_true, decide_eq_true_eq]; omega)]
      exact ⟨rfl, rfl, rfl⟩
    · intro hc1 hc2
      split
      · exact ⟨hc1, hc2⟩
      · rename_i hg
        simp only [Bool.or_eq_true, decide_eq_true_eq] at hg
        push_neg at hg
        dsimp only
        exact ⟨by omega, by omega⟩
  · intro m p
    unfold MOBIDocument.SetCurrentPage MOBIDocument.GetPageCount
      MOBIDocument.GetCurrentPage
    refine ⟨?_, ?_, ?_⟩
    · intro h
      rw [if_pos (by simp only [Bool.or_eq_true, decide_eq_true_eq]; omega)]
      exact ⟨rfl, rfl⟩
    · intro h1 h2
      rw [if_neg (by simp only [Bool.or_eq_true, decide_eq_true_eq]; omega)]
      exact ⟨rfl, rfl, rfl⟩
    · intro hc1 hc2
      split
      · exact ⟨hc1, hc2⟩
      · rename_i hg
        simp only [Bool.or_eq_true, decide_eq_true_eq] at hg
        push_neg at hg
        dsimp only
        exact ⟨by omega, by omega⟩
  · intro pd p
    unfold PDFDocument.SetCurrentPage PDFDocument.GetPageCount
      PDFDocument.GetCurrentPage
    refine ⟨?_, ?_, ?_⟩
    · intro h
      rw [if_pos (by simp only [Bool.or_eq_true, decide_eq_true_eq]; omega)]
      exact ⟨rfl, rfl⟩
    · intro h1 h2
      rw [if_neg (by simp only [Bool.or_eq_true, decide_eq_true_eq]; omega)]
      exact ⟨rfl, rfl, rfl⟩
    · intro hc1 hc2
      split
      · exact ⟨hc1, hc2⟩
      · rename_i hg
        simp only [Bool.or_eq_true, decide_eq_true_eq] at hg
        push_neg at hg
        dsimp only
        exact ⟨by omega, by omega⟩

/-- Witness for C4's amended claim: the three constructors applied to the
concrete documents, and SetCurrentPage exercised in and out of range. -/
theorem page_index_invariant_witness :
    (1 ≤ epubMinimalDoc.GetPageCount ∧ epubMinimalDoc.GetCurrentPage = 1) ∧
    (1 ≤ mobiPlaceholderDoc.GetPageCount ∧ mobiPlaceholderDoc.GetCurrentPage = 1) ∧
    (pdfDocZeroPages.GetPageCount = pdfEngineZeroPages.numPage ∧
      pdfDocZeroPages.GetCurrentPage = 1) ∧
    ((epubMinimalDoc.SetCurrentPage 0).1 = epubMinimalDoc ∧
      ((epubMinimalDoc.SetCurrentPage 0).2).isSome) ∧
    ((mobiPlaceholderDoc.SetCurrentPage 1).1.currentPage = 1 ∧
      (mobiPlaceholderDoc.SetCurrentPage 1).1.pages = mobiPlaceholderDoc.pages ∧
      (mobiPlaceholderDoc.SetCurrentPage 1).2 = none) ∧
    (1 ≤ (pdfDocTwoOk.SetCurrentPage 5).1.currentPage ∧
      (pdfDocTwoOk.SetCurrentPage 5).1.currentPage ≤ pdfDocTwoOk.GetPageCount) := by
  have h := @page_index_invariant Unit
  exact ⟨h.1 unescapeAmp epubXmlOracle (fun _ => Except.ok epubZip) "book.epub"
           epubMinimalDoc (by decide),
         h.2.1 (fun _ => Except.ok "") "book.mobi" mobiPlaceholderDoc (by decide),
         h.2.2.1 (fun _ => Except.ok pdfEngineZeroPages) "empty.pdf"
           pdfEngineZeroPages pdfDocZeroPages rfl rfl,
         (h.2.2.2.1 epubMinimalDoc 0).1 (by decide),
         (h.2.2.2.2.1 mobiPlaceholderDoc 1).2.1 (by decide) (by decide),
         (h.2.2.2.2.2 pdfDocTwoOk 5).2.2 (by decide) (by decide)⟩

/-! ### Claim C9 -/

/-- Helper: a successful parseEPUB whose OPF is known returns the OPF's
metadata. -/
theorem parseEPUB_ok_meta {unescape : String → String}
    {xml : String → Except String OPF} {zipFile : List (String × String)}
    {res : String × String × List String} {opfPath : String} {opf : OPF}
    (hpath : findOPFPath zipFile = Except.ok opfPath)
    (hopf : parseOPF xml zipFile opfPath = Except.ok opf)
    (h : parseEPUB unescape xml zipFile = Except.ok res) :
    res.1 = epubTitleOf opf ∧ res.2.1 = epubAuthorOf opf := by
  unfold parseEPUB at h
  rw [hpath] at h
  dsimp only at h
  rw [hopf] at h
  dsimp only at h
  split at h
  · cases h
  · cases h
    exact ⟨rfl, rfl⟩

/-- Helper: a successful NewEPUBDocument whose OPF is known determines the
stored title and author. -/
theorem newEPUB_ok_meta {unescape : String → String}
    {xml : String → Except String OPF}
    {zipOpen : String → Except String (List (String × String))} {fn : String}
    {doc : EPUBDocument} {zf : List (String × String)} {opfPath : String}
    {opf : OPF}
    (hz : zipOpen fn = Except.ok zf)
    (hpath : findOPFPath zf = Except.ok opfPath)
    (hopf : parseOPF xml zf opfPath = Except.ok opf)
    (h : NewEPUBDocument unescape xml zipOpen fn = Except.ok doc) :
    doc.title = (if epubTitleOf opf = "" then "EPUB Document" else epubTitleOf opf) ∧
    doc.author = epubAuthorOf opf := by
  unfold NewEPUBDocument at h
  rw [hz] at h
  dsimp only at h
  cases hp : parseEPUB unescape xml zf with
  | error e => rw [hp] at h; cases h
  | ok res =>
    rw [hp] at h
    cases h
    obtain ⟨h1, h2⟩ := parseEPUB_ok_meta hpath hopf hp
    rw [h1, h2]
    exact ⟨rfl, rfl⟩

/-- C9 counterexample: loaded documents whose sources carry no author
metadata return the empty string from GetAuthor, not a non-empty
placeholder — for MOBI always, and for PDF when the engine reports no
metadata map. -/
theorem author_empty_cex :
    NewMOBIDocument (fun _ => Except.ok "") "book.mobi" =
      Except.ok mobiPlaceholderDoc ∧
    mobiPlaceholderDoc.GetAuthor = "" ∧
    NewPDFDocument (fun _ => Except.ok pdfEngineRenderFails) "a.pdf" =
      Except.ok pdfDocRenderFails ∧
    pdfDocRenderFails.GetAuthor = "" :=
  ⟨by decide, rfl, rfl, rfl⟩

/-- C9 amended: GetTitle returns the non-empty format-specific placeholder
when the source carries no title ("PDF Document", "EPUB Document",
"MOBI Document" — the MOBI title is always that placeholder); GetAuthor
returns the empty string, not a placeholder, when the source carries no
author. -/
theorem metadata_defaulting {Img : Type} :
    (∀ (fitzNew : String → Except String (FitzEngine Img)) (fn : String)
       (eng : FitzEngine Img) (doc : PDFDocument Img),
      fitzNew fn = Except.ok eng → NewPDFDocument fitzNew fn = Except.ok doc →
      (eng.metadata = none → doc.GetTitle = "PDF Document" ∧ doc.GetAuthor = "") ∧
      (∀ m, eng.metadata = some m → mapGet m "title" = "" →
        doc.GetTitle = "PDF Document") ∧
      (∀ m, eng.metadata = some m → doc.GetAuthor = mapGet m "author")) ∧
    (∀ (unescape : String → String) (xml : String → Except String OPF)
       (zipOpen : String → Except String (List (String × String))) (fn : String)
       (doc : EPUBDocument) (zf : List (String × String)) (opfPath : String)
       (opf : OPF),
      zipOpen fn = Except.ok zf →
      findOPFPath zf = Except.ok opfPath →
      parseOPF xml zf opfPath = Except.ok opf →
      NewEPUBDocument unescape xml zipOpen fn = Except.ok doc →
      (opf.title = [] → doc.GetTitle = "EPUB Document") ∧
      (opf.creator = [] → doc.GetAuthor = "")) ∧
    (∀ (readFile : String → Except String String) (fn : String)
       (doc : MOBIDocument),
      NewMOBIDocument readFile fn = Except.ok doc →
      doc.GetTitle = "MOBI Document" ∧ doc.GetAuthor = "") := by
  refine ⟨?_, ?_, ?_⟩
  · intro fitzNew fn eng doc hf hn
    unfold NewPDFDocument at hn
    rw [hf] at hn
    cases hn
    refine ⟨?_, ?_, ?_⟩
    · intro hm
      unfold PDFDocument.GetTitle PDFDocument.GetAuthor pdfReadMetadata
      dsimp only
      rw [hm]
      unfold pdfDefaultTitle
      dsimp only
      rw [if_pos rfl]
      exact ⟨rfl, rfl⟩
    · intro m hm ht
      unfold PDFDocument.GetTitle pdfReadMetadata
      dsimp only
      rw [hm]
      unfold pdfDefaultTitle
      dsimp only
      rw [ht, if_pos rfl]
    · intro m hm
      unfold PDFDocument.GetAuthor pdfReadMetadata
      dsimp only
      rw [hm]
      unfold pdfDefaultTitle
      dsimp only
      split <;> rfl
  · intro unescape xml zipOpen fn doc zf opfPath opf hz hpath hopf hdoc
    obtain ⟨ht, ha⟩ := newEPUB_ok_meta hz hpath hopf hdoc
    constructor
    · intro h0
      unfold EPUBDocument.GetTitle
      rw [ht]
      have : epubTitleOf opf = "" := by unfold epubTitleOf; rw [h0]
      rw [this, if_pos rfl]
    · intro h0
      unfold EPUBDocument.GetAuthor
      rw [ha]
      unfold epubAuthorOf
      rw [h0]
      rfl
  · intro readFile fn doc h
    obtain ⟨_, _, ht, ha⟩ := newMOBI_ok h
    unfold MOBIDocument.GetTitle MOBIDocument.GetAuthor
    exact ⟨ht, ha⟩

/-- Witness for C9's amended claim: a metadata-free PDF engine, the
metadata-free minimal EPUB and any MOBI document show the placeholder titles
and empty authors. -/
theorem metadata_defaulting_witness :
    (pdfDocRenderFails.GetTitle = "PDF Document" ∧
      pdfDocRenderFails.GetAuthor = "") ∧
    epubBareDoc.GetTitle = "EPUB Document" ∧
    epubBareDoc.GetAuthor = "" ∧
    (mobiPlaceholderDoc.GetTitle = "MOBI Document" ∧
      mobiPlaceholderDoc.GetAuthor = "") := by
  have h := @metadata_defaulting Unit
  have hepub := h.2.1 unescapeAmp epubXmlOracleBare (fun _ => Except.ok epubZipBare)
    "bare.epub" epubBareDoc epubZipBare "content.opf" epubOpfBare rfl
    (by decide) (by decide) (by decide)
  exact ⟨(h.1 (fun _ => Except.ok pdfEngineRenderFails) "a.pdf"
            pdfEngineRenderFails pdfDocRenderFails rfl rfl).1 rfl,
         hepub.1 rfl, hepub.2 rfl,
         h.2.2 (fun _ => Except.ok "") "book.mobi" mobiPlaceholderDoc (by decide)⟩

/-! ### Claim C6 -/

/-- C6: EPUB extraction on a minimal document — a ZIP whose container names
an OPF whose spine references exactly one manifest item of XHTML/HTML media
type with non-blank extracted text loads successfully, has page count 1, and
page 1 is the chapter HTML with script/style blocks removed, the remaining
tags stripped to spaces, entities decoded, whitespace collapsed and the
result trimmed. -/
theorem epub_minimal_roundtrip
    (unescape : String → String) (xmlUnmarshalOPF : String → Except String OPF)
    (zipOpen : String → Except String (List (String × String)))
    (filename : String) (zipFile : List (String × String))
    (opfPath opfContent htmlContent : String) (opf : OPF)
    (mi : ManifestItem) (si : SpineItem)
    (hzip : zipOpen filename = Except.ok zipFile)
    (hopfPath : findOPFPath zipFile = Except.ok opfPath)
    (hopfRead : readFileFromZip zipFile opfPath = Except.ok opfContent)
    (hxml : xmlUnmarshalOPF opfContent = Except.ok opf)
    (hspine : opf.spine = [si])
    (hfind : opf.manifest.find? (fun item => item.id = si.idref) = some mi)
    (hmedia : mi.mediaType = "application/xhtml+xml" ∨ mi.mediaType = "text/html")
    (hhtml : readFileFromZip zipFile (joinPath (dirPath opfPath) mi.href) =
      Except.ok htmlContent)
    (htext : trimSpace (extractTextFromHTML unescape htmlContent) ≠ "") :
    ∃ doc : EPUBDocument,
      NewEPUBDocument unescape xmlUnmarshalOPF zipOpen filename = Except.ok doc ∧
      doc.GetPageCount = 1 ∧
      doc.GetPageContent 1 = Except.ok (trimSpace (String.mk (collapseWS
        (unescape (String.mk (stripTags (stripScriptStyle htmlContent.data)))).data))) := by
  have hopf : parseOPF xmlUnmarshalOPF zipFile opfPath = Except.ok opf := by
    unfold parseOPF
    rw [hopfRead]
    dsimp only
    rw [hxml]
  have hstep : spineStep unescape zipFile opf (dirPath opfPath) [] si =
      [extractTextFromHTML unescape htmlContent] := by
    unfold spineStep
    rw [hfind]
    dsimp only
    rw [if_pos (by rcases hmedia with h | h <;> simp [h])]
    rw [hhtml]
    dsimp only
    rw [if_pos htext]
    rfl
  have hfold : opf.spine.foldl (spineStep unescape zipFile opf (dirPath opfPath)) [] =
      [extractTextFromHTML unescape htmlContent] := by
    rw [hspine, List.foldl_cons, List.foldl_nil, hstep]
  have hparse : parseEPUB unescape xmlUnmarshalOPF zipFile =
      Except.ok (epubTitleOf opf, epubAuthorOf opf,
        [extractTextFromHTML unescape htmlContent]) := by
    unfold parseEPUB
    rw [hopfPath]
    dsimp only
    rw [hopf]
    dsimp only
    rw [hfold]
    rfl
  refine ⟨{ zipFile := zipFile, currentPage := 1,
            pages := [extractTextFromHTML unescape htmlContent],
            title := if epubTitleOf opf = "" then "EPUB Document"
                     else epubTitleOf opf,
            author := epubAuthorOf opf }, ?_, rfl, rfl⟩
  unfold NewEPUBDocument
  rw [hzip]
  dsimp only
  rw [hparse]

/-- Witness for C6: the concrete minimal EPUB loads to one page whose text
is the decoded, stripped chapter body. -/
theorem epub_minimal_roundtrip_witness :
    (∃ doc : EPUBDocument,
      NewEPUBDocument unescapeAmp epubXmlOracle (fun _ => Except.ok epubZip)
        "book.epub" = Except.ok doc ∧
      doc.GetPageCount = 1 ∧
      doc.GetPageContent 1 = Except.ok (trimSpace (String.mk (collapseWS
        (unescapeAmp (String.mk (stripTags (stripScriptStyle epubChapterHtml.data)))).data)))) ∧
    extractTextFromHTML unescapeAmp epubChapterHtml = "Hello & welcome" := by
  refine ⟨epub_minimal_roundtrip unescapeAmp epubXmlOracle
    (fun _ => Except.ok epubZip) "book.epub" epubZip "content.opf" epubOpfXml
    epubChapterHtml epubOpf
    { id := "ch1", href := "ch1.xhtml", mediaType := "application/xhtml+xml" }
    { idref := "ch1" }
    rfl (by decide) (by decide) (by decide) (by decide) (by decide)
    (Or.inl rfl) (by decide) (by decide), by decide⟩

/-! ### Claim C7 -/

/-- C7: setZoom clamps its argument into [0.1, 5.0] and forces custom mode
(so setZoom 10 yields 5 and setZoom 0.01 yields 0.1); zoomIn and zoomOut
are setZoom of the current factor multiplied and divided by 1.2, so the
zoom factor lies in [0.1, 5.0] after every operation. -/
theorem zoom_clamping (ma : ModernApplication) (level : Rat) :
    (setZoom ma level).zoomLevel = min 5.0 (max 0.1 level) ∧
    (setZoom ma level).fitMode = "custom" ∧
    0.1 ≤ (setZoom ma level).zoomLevel ∧ (setZoom ma level).zoomLevel ≤ 5.0 ∧
    (setZoom ma 10).zoomLevel = 5.0 ∧
    (setZoom ma 0.01).zoomLevel = 0.1 ∧
    zoomIn ma = setZoom ma (ma.zoomLevel * 1.2) ∧
    zoomOut ma = setZoom ma (ma.zoomLevel / 1.2) ∧
    (zoomIn ma).zoomLevel = min 5.0 (max 0.1 (ma.zoomLevel * 1.2)) ∧
    (zoomOut ma).zoomLevel = min 5.0 (max 0.1 (ma.zoomLevel / 1.2)) := by
  have key : ∀ l : Rat, clampZoomHigh (clampZoomLow l) = min 5.0 (max 0.1 l) := by
    intro l
    unfold clampZoomLow clampZoomHigh
    by_cases h1 : l < 0.1
    · rw [if_pos h1, if_neg (by norm_num), max_eq_left (le_of_lt h1),
        min_eq_right (by norm_num)]
    · rw [if_neg h1]
      have h1' : (0.1 : Rat) ≤ l := not_lt.mp h1
      by_cases h2 : l > 5.0
      · rw [if_pos h2, max_eq_right h1', min_eq_left (le_of_lt h2)]
      · rw [if_neg h2, max_eq_right h1', min_eq_right (not_lt.mp h2)]
  have hz : ∀ l : Rat, (setZoom ma l).zoomLevel = min 5.0 (max 0.1 l) := by
    intro l
    unfold setZoom
    exact key l
  refine ⟨hz level, rfl, ?_, ?_, ?_, ?_, rfl, rfl, hz _, hz _⟩
  · rw [hz level]
    exact le_min (by norm_num) (le_max_left _ _)
  · rw [hz level]
    exact min_le_left _ _
  · rw [hz 10, max_eq_right (by norm_num), min_eq_left (by norm_num)]
  · rw [hz 0.01, max_eq_left (by norm_num), min_eq_right (by norm_num)]

/-! ### Claim C8 -/

/-- C8: after fitToPage the mode is page with zoom 1.0; a following zoomIn
moves the mode to custom (zoom 1.2); a following fitToWidth resets zoom to
1.0 and the mode to width. -/
theorem zoom_fit_exclusion (ma : ModernApplication) :
    (fitToPage ma).fitMode = "page" ∧ (fitToPage ma).zoomLevel = 1.0 ∧
    (zoomIn (fitToPage ma)).fitMode = "custom" ∧
    (zoomIn (fitToPage ma)).zoomLevel = 1.2 ∧
    (fitToWidth (zoomIn (fitToPage ma))).zoomLevel = 1.0 ∧
    (fitToWidth (zoomIn (fitToPage ma))).fitMode = "width" := by
  refine ⟨rfl, rfl, rfl, ?_, rfl, rfl⟩
  unfold zoomIn fitToPage setZoom clampZoomLow clampZoomHigh
  dsimp only
  rw [if_neg (by norm_num), if_neg (by norm_num)]
  norm_num

end EbookReader
